import Mathlib

/-!
Shallow embedding of `helpers/evaluation.py` from the
sequence-based-recommendations repository: the `Evaluator` class
(ranking metrics over accumulated (goal, prediction) instances) and the
`DistributionCharacteristics` class (item frequency counts).

Item identifiers are modelled as natural numbers (the repository's data
model declares identifiers valid within [0, n_items)).  Exact rational
and real arithmetic stands in for Python float arithmetic.  Methods
whose Python code can raise (IndexError on goal[0], ZeroDivisionError
on an empty correct-prediction list, out-of-range fancy indexing in
get_rank_comparison) are modelled with Option.  Loading the raw
interaction file from disk is out of scope for the repository; the
Dataset collaborator therefore exposes the interaction matrix content
directly, and the lazy caching of that matrix inside the Evaluator is
modelled by explicit state passing.
-/

/-- A dataset collaborator: item count, dense popularity array, user count,
and the item-by-user interaction matrix that `_load_interaction_matrix`
builds from the training-triplet file (file parsing itself is out of
scope; the matrix content is exposed by the collaborator). -/
structure Dataset where
  n_items : ℕ
  item_popularity : ℕ → ℕ
  n_users : ℕ
  interactionsFile : ℕ → ℕ → ℝ

/-- The `Evaluator` state: the accumulated (goal, prediction) instances,
the cutoff `k`, and the lazily cached interaction matrix (none until
`_load_interaction_matrix` has run, mirroring the `hasattr` check). -/
structure Evaluator where
  instances : List (List ℕ × List ℕ)
  k : ℕ
  interactions : Option (ℕ → ℕ → ℝ)

/-- `Evaluator.__init__`: empty instance list, no cached matrix. -/
def mkEvaluator (k : ℕ) : Evaluator :=
  { instances := [], k := k, interactions := none }

/-- `add_instance(goal, predictions)`: append the pair to the instance list. -/
def add_instance (e : Evaluator) (goal prediction : List ℕ) : Evaluator :=
  { e with instances := e.instances ++ [(goal, prediction)] }

/-- The effective prediction window `prediction[:min(len(prediction), k)]`. -/
def window (k : ℕ) (prediction : List ℕ) : List ℕ :=
  prediction.take (min prediction.length k)

/-- `len(set(goal) & set(w))`: the number of distinct goal items occurring
in the list `w`. -/
def nCorrect (goal w : List ℕ) : ℕ :=
  (goal.dedup.filter (fun x => x ∈ w)).length

/-- `average_precision()`: per instance with non-empty prediction add
`|set(goal) ∩ set(window)| / min(len(prediction), k)`; divide the total by
the number of instances. -/
def average_precision (e : Evaluator) : ℚ :=
  (e.instances.foldl
      (fun acc gp =>
        if 0 < gp.2.length then
          acc + (nCorrect gp.1 (window e.k gp.2) : ℚ) / ((min gp.2.length e.k : ℕ) : ℚ)
        else acc) 0)
    / (e.instances.length : ℚ)

/-- `average_recall()`: per instance with non-empty goal add
`|set(goal) ∩ set(window)| / len(goal)`; divide the total by the number of
instances. -/
def average_recall (e : Evaluator) : ℚ :=
  (e.instances.foldl
      (fun acc gp =>
        if 0 < gp.1.length then
          acc + (nCorrect gp.1 (window e.k gp.2) : ℚ) / (gp.1.length : ℚ)
        else acc) 0)
    / (e.instances.length : ℚ)

/-- `general_success_percentage()`: fraction of instances whose goal meets
the effective prediction window. -/
def general_success_percentage (e : Evaluator) : ℚ :=
  (e.instances.foldl
      (fun acc gp => acc + if 0 < nCorrect gp.1 (window e.k gp.2) then (1 : ℚ) else 0) 0)
    / (e.instances.length : ℚ)

/-- The loop of `strict_success_percentage()`: sum `int(goal[0] in window)`
over the instances; `goal[0]` on an empty goal raises, modelled by none. -/
def strictScore (k : ℕ) : List (List ℕ × List ℕ) → Option ℕ
  | [] => some 0
  | (goal, prediction) :: rest =>
    match goal with
    | [] => none
    | g0 :: _ =>
      (strictScore k rest).map (fun s => (if g0 ∈ window k prediction then 1 else 0) + s)

/-- `strict_success_percentage()`: fraction of instances whose first goal
item lies in the effective prediction window; raises (none) on an empty
goal, or on an empty instance list (division by zero). -/
def strict_success_percentage (e : Evaluator) : Option ℚ :=
  match strictScore e.k e.instances with
  | none => none
  | some s =>
    if e.instances.length = 0 then none
    else some ((s : ℚ) / (e.instances.length : ℚ))

/-- `get_all_goals()`: concatenation of the goals of all instances. -/
def get_all_goals (e : Evaluator) : List ℕ :=
  e.instances.flatMap (fun gp => gp.1)

/-- The Python loop pattern in which an exception anywhere aborts the whole
call: map a fallible function over a list, none if any element fails. -/
def optMap {α β : Type} (f : α → Option β) : List α → Option (List β)
  | [] => some []
  | a :: l =>
    match f a with
    | none => none
    | some b => (optMap f l).map (fun bs => b :: bs)

/-- `get_strict_goals()`: the first goal item of each instance; indexing
`goal[0]` on an empty goal raises, modelled by none. -/
def get_strict_goals (e : Evaluator) : Option (List ℕ) :=
  optMap (fun gp => gp.1.head?) e.instances

/-- `get_all_predictions()`: concatenation of the effective prediction
windows of all instances. -/
def get_all_predictions (e : Evaluator) : List ℕ :=
  e.instances.flatMap (fun gp => window e.k gp.2)

/-- `get_correct_predictions()`: concatenation over instances of
`list(set(goal) & set(window))` (the distinct goal items found in the
window; Python set order is arbitrary, first-occurrence order is used
here). -/
def get_correct_predictions (e : Evaluator) : List ℕ :=
  e.instances.flatMap (fun gp => gp.1.dedup.filter (fun x => x ∈ window e.k gp.2))

/-- `get_correct_strict_predictions()`: concatenation over instances of
`list(set([goal[0]]) & set(window))`; `goal[0]` raises on an empty goal. -/
def get_correct_strict_predictions (e : Evaluator) : Option (List ℕ) :=
  (optMap (fun gp =>
      gp.1.head?.map (fun g0 => if g0 ∈ window e.k gp.2 then [g0] else []))
    e.instances).map List.flatten

/-- `np.argpartition(-item_popularity, nb)[:nb]` with `nb = n_items // 100`:
the identifiers of the `n_items // 100` most popular items.  numpy leaves
the order within the partition unspecified; the model takes the first
`nb` indices of a stable sort of `range(n_items)` by descending
popularity, a valid refinement. -/
def pop_items (d : Dataset) : List ℕ :=
  ((List.range d.n_items).insertionSort
      (fun a b => d.item_popularity b ≤ d.item_popularity a)).take
    (d.n_items / 100)

/-- `success_in_top_items()`: the fraction of correct predictions that are
among the top-1% most popular items; dividing by a zero correct count
raises, modelled by none. -/
def success_in_top_items (d : Dataset) (e : Evaluator) : Option ℚ :=
  let correct := get_correct_predictions e
  if correct.length = 0 then none
  else
    some (((correct.filter (fun i => i ∈ pop_items d)).length : ℚ) / (correct.length : ℚ))

/-- `np.argsort(prediction)`: indices that sort the prediction list
ascending by value (ties resolved arbitrarily by numpy; stably here). -/
def argsort (l : List ℕ) : List ℕ :=
  (List.range l.length).insertionSort (fun a b => l.getD a 0 ≤ l.getD b 0)

/-- `get_rank_comparison()`: per instance, fancy-index the argsort of the
full prediction list by the goal item identifiers (an identifier that is
not a valid index raises, modelled by none), enumerate the result, and
concatenate across instances. -/
def get_rank_comparison (e : Evaluator) : Option (List (ℕ × ℕ)) :=
  (optMap (fun gp =>
      (optMap (fun g => (argsort gp.2).get? g) gp.1).map List.enum)
    e.instances).map List.flatten

/-- Dictionary access on the association-list model of a Python dict:
the value stored at the first entry with the given key. -/
def counterLookup (x : ℕ) : List (ℕ × ℕ) → Option ℕ
  | [] => none
  | (k, v) :: c => if x = k then some v else counterLookup x c

/-- `collections.Counter(movies)` built as Python does: walk the input,
incrementing the count of a seen key or appending a fresh key with count
one (association list in first-occurrence key order). -/
def counterAdd (c : List (ℕ × ℕ)) (x : ℕ) : List (ℕ × ℕ) :=
  if (counterLookup x c).isSome then
    c.map (fun kv => if kv.1 = x then (kv.1, kv.2 + 1) else kv)
  else c ++ [(x, 1)]

/-- The `DistributionCharacteristics` constructor: the frequency counter of
the input movie list. -/
def counterOf (movies : List ℕ) : List (ℕ × ℕ) :=
  movies.foldl counterAdd []

/-- `DistributionCharacteristics.number_of_movies()`: the number of keys of
the counter. -/
def number_of_movies (movies : List ℕ) : ℕ :=
  (counterOf movies).length

/-- The count the counter assigns to an item (0 for an absent key). -/
def counterCount (movies : List ℕ) (x : ℕ) : ℕ :=
  (counterLookup x (counterOf movies)).getD 0

/-- The DCG discount `1. / np.log2(2 + i)` at window position `i`. -/
noncomputable def ndcgWeight (i : ℕ) : ℝ :=
  1 / Real.logb 2 (2 + (i : ℝ))

/-- The loop body of `average_ndcg()`: walk the window with position
counter `i`, accumulating `max_dcg` (positions `i < len(goal)`) and `dcg`
(positions whose item is in the goal); returns (max_dcg, dcg). -/
noncomputable def ndcgAux (goal : List ℕ) : ℕ → List ℕ → ℝ × ℝ
  | _, [] => (0, 0)
  | i, p :: rest =>
    let r := ndcgAux goal (i + 1) rest
    ((if i < goal.length then ndcgWeight i + r.1 else r.1),
     (if p ∈ goal then ndcgWeight i + r.2 else r.2))

/-- `average_ndcg()`: per instance with non-empty prediction add
`dcg / max_dcg` computed over the effective prediction window; divide the
total by the number of instances. -/
noncomputable def average_ndcg (e : Evaluator) : ℝ :=
  (e.instances.foldl
      (fun acc gp =>
        if 0 < gp.2.length then
          acc + (ndcgAux gp.1 0 (window e.k gp.2)).2 / (ndcgAux gp.1 0 (window e.k gp.2)).1
        else acc) 0)
    / (e.instances.length : ℝ)

/-- `sum(self.dataset.item_popularity)`: total number of ratings. -/
noncomputable def totalRatings (d : Dataset) : ℝ :=
  ∑ i in Finset.range d.n_items, (d.item_popularity i : ℝ)

/-- `average_novelty()`: per instance with non-empty prediction add the sum
over the window of `log2(popularity[p] / total_ratings)` divided by the
window length; negate the total and divide by the number of instances. -/
noncomputable def average_novelty (d : Dataset) (e : Evaluator) : ℝ :=
  (-(e.instances.foldl
        (fun acc gp =>
          if 0 < gp.2.length then
            acc +
              ((window e.k gp.2).map
                  (fun p => Real.logb 2 ((d.item_popularity p : ℝ) / totalRatings d))).sum
                / ((min gp.2.length e.k : ℕ) : ℝ)
          else acc) 0))
    / (e.instances.length : ℝ)

/-- The computation of `_intra_list_similarity` against a given interaction
matrix `M`: `S = Σ_{i} Σ_{j<i} sims[i,j] / norm[i] / norm[j]` where
`norm[x] = sqrt(Σ_u M[items[x],u])` and
`sims[i,j] = Σ_u M[items[i],u] * M[items[j],u]`. -/
noncomputable def intraListSim (M : ℕ → ℕ → ℝ) (nUsers : ℕ) (items : List ℕ) : ℝ :=
  ∑ i in Finset.range items.length, ∑ j in Finset.range i,
    (∑ u in Finset.range nUsers, M (items.getD i 0) u * M (items.getD j 0) u)
      / Real.sqrt (∑ u in Finset.range nUsers, M (items.getD i 0) u)
      / Real.sqrt (∑ u in Finset.range nUsers, M (items.getD j 0) u)

/-- `_intra_list_similarity(items)`: if the interaction matrix is not yet
cached, load it from the dataset (the `hasattr` check plus
`_load_interaction_matrix`), then compute against the cached matrix.
Returns the value together with the possibly updated Evaluator state. -/
noncomputable def intra_list_similarity (d : Dataset) (e : Evaluator) (items : List ℕ) :
    ℝ × Evaluator :=
  match e.interactions with
  | some M => (intraListSim M d.n_users items, e)
  | none =>
    (intraListSim d.interactionsFile d.n_users items,
     { e with interactions := some d.interactionsFile })

/-- `average_intra_list_similarity()`: per instance with non-empty
prediction add `_intra_list_similarity(window)`, threading the cache
state; divide the total by the number of instances. -/
noncomputable def average_intra_list_similarity (d : Dataset) (e : Evaluator) :
    ℝ × Evaluator :=
  let r := e.instances.foldl
    (fun (acc : ℝ × Evaluator) gp =>
      if 0 < gp.2.length then
        let s := intra_list_similarity d acc.2 (window e.k gp.2)
        (acc.1 + s.1, s.2)
      else acc) (0, e)
  (r.1 / (e.instances.length : ℝ), r.2)

/-! ### Spec-side formulations used by refinement claims -/

/-- Following the spec's words: per-instance dcg, the sum of `1/log2(2+i)`
over window positions `i` whose item is in the goal. -/
noncomputable def specDcg (goal w : List ℕ) : ℝ :=
  ∑ i in Finset.range w.length, if w.getD i 0 ∈ goal then ndcgWeight i else 0

/-- The ideal dcg with the cap the code actually applies: the sum of
`1/log2(2+i)` over window positions `i < len(goal)`, that is over
`i < min(len(goal), len(window))`. -/
noncomputable def specMaxDcgCapped (goal w : List ℕ) : ℝ :=
  ∑ i in Finset.range (min goal.length w.length), ndcgWeight i

/-- Following the claim's words: max_dcg as the sum of `1/log2(2+i)` over
all positions `i < len(goal)`, not capped by the window length. -/
noncomputable def specMaxDcgUncapped (goal : List ℕ) : ℝ :=
  ∑ i in Finset.range goal.length, ndcgWeight i

/-- The claim's formula for `average_ndcg()`: the mean over the total
instance count of `dcg / max_dcg` with the uncapped ideal dcg. -/
noncomputable def ndcgClaimedFormula (e : Evaluator) : ℝ :=
  ((e.instances.map (fun gp =>
      if 0 < gp.2.length then
        specDcg gp.1 (window e.k gp.2) / specMaxDcgUncapped gp.1
      else 0)).sum)
    / (e.instances.length : ℝ)

/-! ### Helper lemmas about the window and list folds -/

theorem length_window (k : ℕ) (p : List ℕ) : (window k p).length = min p.length k := by
  simp [window]

theorem window_window (k : ℕ) (p : List ℕ) : window k (window k p) = window k p := by
  have h : min (window k p).length k = (window k p).length := by
    rw [length_window, min_assoc, min_self]
  rw [window, h, List.take_length]

theorem min_length_window (k : ℕ) (p : List ℕ) :
    min (window k p).length k = min p.length k := by
  rw [length_window, min_assoc, min_self]

theorem window_eq_nil (k : ℕ) (p : List ℕ) (h : min p.length k = 0) :
    window k p = [] := by
  have := length_window k p
  rw [h] at this
  exact List.length_eq_zero.1 this

theorem nCorrect_nil (g : List ℕ) : nCorrect g [] = 0 := by
  simp [nCorrect]

theorem foldl_congr_mem {α β : Type} {f g : β → α → β} :
    ∀ (l : List α) (a : β), (∀ b x, x ∈ l → f b x = g b x) →
      l.foldl f a = l.foldl g a
  | [], _, _ => rfl
  | x :: l, a, h => by
    simp only [List.foldl_cons]
    rw [h a x (by simp)]
    exact foldl_congr_mem l _ (fun b y hy => h b y (by simp [hy]))

theorem foldl_add_map {M : Type} [AddCommMonoid M] {α : Type} (f : α → M) :
    ∀ (l : List α) (a : M), l.foldl (fun acc x => acc + f x) a = a + (l.map f).sum
  | [], a => by simp
  | x :: l, a => by
    simp only [List.foldl_cons, List.map_cons, List.sum_cons]
    rw [foldl_add_map f l (a + f x), add_assoc]

theorem ite_add_form {M : Type} [AddCommMonoid M] (c : Prop) [Decidable c] (a v : M) :
    (if c then a + v else a) = a + (if c then v else 0) := by
  split_ifs <;> simp

theorem foldl_ite_add_map {M : Type} [AddCommMonoid M] {α : Type} (p : α → Prop)
    [DecidablePred p] (f : α → M) (l : List α) (a : M) :
    l.foldl (fun acc x => if p x then acc + f x else acc) a
      = a + (l.map (fun x => if p x then f x else 0)).sum := by
  rw [foldl_congr_mem l a (fun b x _ => ite_add_form (p x) b (f x))]
  exact foldl_add_map _ l a


/-! ### Lemmas about the Counter model -/

theorem counterLookup_isSome_iff (x : ℕ) :
    ∀ (c : List (ℕ × ℕ)), (counterLookup x c).isSome = true ↔ x ∈ c.map Prod.fst
  | [] => by simp [counterLookup]
  | (k, v) :: c => by
    by_cases h : x = k
    · simp [counterLookup, h]
    · simpa [counterLookup, h] using counterLookup_isSome_iff x c

theorem keys_counterAdd (c : List (ℕ × ℕ)) (x : ℕ) :
    (counterAdd c x).map Prod.fst
      = if x ∈ c.map Prod.fst then c.map Prod.fst else c.map Prod.fst ++ [x] := by
  unfold counterAdd
  by_cases h : x ∈ c.map Prod.fst
  · rw [if_pos ((counterLookup_isSome_iff x c).2 h), if_pos h]
    rw [List.map_map]
    refine List.map_congr_left (fun kv _ => ?_)
    by_cases hk : kv.1 = x <;> simp [hk]
  · rw [if_neg (fun hs => h ((counterLookup_isSome_iff x c).1 hs)), if_neg h]
    simp

theorem counterLookup_map_inc (x y : ℕ) :
    ∀ (c : List (ℕ × ℕ)),
      counterLookup y (c.map (fun kv => if kv.1 = x then (kv.1, kv.2 + 1) else kv))
        = if y = x then (counterLookup y c).map (fun v => v + 1) else counterLookup y c
  | [] => by by_cases h : y = x <;> simp [counterLookup, h]
  | (k, v) :: c => by
    have hrest := counterLookup_map_inc x y c
    rw [List.map_cons]
    by_cases hk : k = x
    · rw [show (if (k, v).1 = x then ((k, v).1, (k, v).2 + 1) else (k, v)) = (k, v + 1)
        from by simp [hk]]
      by_cases hy : y = k
      · simp only [counterLookup, if_pos hy, if_pos (hy.trans hk)]
        rfl
      · simp only [counterLookup, if_neg hy, hrest]
    · rw [show (if (k, v).1 = x then ((k, v).1, (k, v).2 + 1) else (k, v)) = (k, v)
        from by simp [hk]]
      by_cases hy : y = k
      · have hyx : ¬y = x := fun h => hk (hy.symm.trans h)
        simp only [counterLookup, if_pos hy, if_neg hyx]
      · simp only [counterLookup, if_neg hy, hrest]

theorem counterLookup_append_single (y x : ℕ) (v : ℕ) :
    ∀ (c : List (ℕ × ℕ)),
      counterLookup y (c ++ [(x, v)])
        = match counterLookup y c with
          | some w => some w
          | none => if y = x then some v else none
  | [] => by by_cases h : y = x <;> simp [counterLookup, h]
  | (k, w) :: c => by
    by_cases hy : y = k
    · simp [counterLookup, hy]
    · simpa [counterLookup, hy] using counterLookup_append_single y x v c

theorem counterLookup_counterAdd (c : List (ℕ × ℕ)) (x y : ℕ) :
    (counterLookup y (counterAdd c x)).getD 0
      = if y = x then (counterLookup x c).getD 0 + 1
        else (counterLookup y c).getD 0 := by
  unfold counterAdd
  by_cases hs : (counterLookup x c).isSome = true
  · rw [if_pos hs, counterLookup_map_inc]
    by_cases h : y = x
    · obtain ⟨w, hw⟩ := Option.isSome_iff_exists.1 hs
      simp [h, hw]
    · simp [h]
  · rw [if_neg hs, counterLookup_append_single]
    by_cases h : y = x
    · have hnone : counterLookup x c = none := Option.not_isSome_iff_eq_none.1 hs
      subst h
      simp [hnone]
    · cases hc : counterLookup y c <;> simp [hc, h]

theorem counter_loop_lookup (y : ℕ) :
    ∀ (l : List ℕ) (c : List (ℕ × ℕ)),
      (counterLookup y (l.foldl counterAdd c)).getD 0
        = (counterLookup y c).getD 0 + l.count y
  | [], c => by simp
  | x :: l, c => by
    rw [List.foldl_cons, counter_loop_lookup y l (counterAdd c x),
      counterLookup_counterAdd]
    by_cases h : y = x
    · subst h
      simp [List.count_cons]
      omega
    · have hxy : ¬x = y := fun hh => h hh.symm
      simp [List.count_cons, h, hxy]

theorem keys_counterAdd_nodup {c : List (ℕ × ℕ)} (x : ℕ)
    (h : (c.map Prod.fst).Nodup) : ((counterAdd c x).map Prod.fst).Nodup := by
  rw [keys_counterAdd]
  by_cases hm : x ∈ c.map Prod.fst
  · simpa [hm] using h
  · simp [hm, List.nodup_append, h]

theorem keys_counterAdd_toFinset (c : List (ℕ × ℕ)) (x : ℕ) :
    ((counterAdd c x).map Prod.fst).toFinset
      = insert x (c.map Prod.fst).toFinset := by
  rw [keys_counterAdd]
  by_cases hm : x ∈ c.map Prod.fst
  · rw [if_pos hm]
    exact (Finset.insert_eq_self.2 (List.mem_toFinset.2 hm)).symm
  · rw [if_neg hm]
    simp [List.toFinset_append, Finset.union_comm, Finset.insert_eq]

theorem counter_loop_keys :
    ∀ (l : List ℕ) (c : List (ℕ × ℕ)),
      ((l.foldl counterAdd c).map Prod.fst).toFinset
          = (c.map Prod.fst).toFinset ∪ l.toFinset
        ∧ ((c.map Prod.fst).Nodup → ((l.foldl counterAdd c).map Prod.fst).Nodup)
  | [], c => by simp
  | x :: l, c => by
    have ih := counter_loop_keys l (counterAdd c x)
    constructor
    · rw [List.foldl_cons, ih.1, keys_counterAdd_toFinset]
      simp [Finset.insert_union, Finset.union_insert]
    · intro h
      rw [List.foldl_cons]
      exact ih.2 (keys_counterAdd_nodup x h)

theorem counterCount_eq_count (movies : List ℕ) (x : ℕ) :
    counterCount movies x = movies.count x := by
  unfold counterCount counterOf
  rw [counter_loop_lookup]
  simp [counterLookup]

theorem number_of_movies_eq_card (movies : List ℕ) :
    number_of_movies movies = movies.toFinset.card := by
  unfold number_of_movies counterOf
  have hk := counter_loop_keys movies []
  have hnd : ((movies.foldl counterAdd []).map Prod.fst).Nodup := by
    apply hk.2
    simp
  calc (movies.foldl counterAdd []).length
      = ((movies.foldl counterAdd []).map Prod.fst).length := (List.length_map _ _).symm
    _ = ((movies.foldl counterAdd []).map Prod.fst).toFinset.card :=
        (List.toFinset_card_of_nodup hnd).symm
    _ = movies.toFinset.card := by rw [hk.1]; simp

/-! ### Lemmas about the ndcg loop and set-intersection sizes -/

theorem ndcgAux_eq (g : List ℕ) :
    ∀ (w : List ℕ) (i0 : ℕ),
      ndcgAux g i0 w
        = (∑ j in Finset.range w.length,
             if i0 + j < g.length then ndcgWeight (i0 + j) else 0,
           ∑ j in Finset.range w.length,
             if w.getD j 0 ∈ g then ndcgWeight (i0 + j) else 0)
  | [], i0 => by simp [ndcgAux]
  | p :: rest, i0 => by
    rw [ndcgAux, ndcgAux_eq g rest (i0 + 1)]
    have hsplit1 :
        ∑ j in Finset.range (rest.length + 1),
            (fun j => if i0 + j < g.length then ndcgWeight (i0 + j) else 0) j
          = (∑ j in Finset.range rest.length,
              if (i0 + 1) + j < g.length then ndcgWeight ((i0 + 1) + j) else 0)
            + (if i0 < g.length then ndcgWeight i0 else 0) := by
      rw [Finset.sum_range_succ']
      congr 1
      refine Finset.sum_congr rfl (fun j _ => ?_)
      rw [show i0 + (j + 1) = (i0 + 1) + j from by omega]
    have hsplit2 :
        ∑ j in Finset.range (rest.length + 1),
            (fun j => if (p :: rest).getD j 0 ∈ g then ndcgWeight (i0 + j) else 0) j
          = (∑ j in Finset.range rest.length,
              if rest.getD j 0 ∈ g then ndcgWeight ((i0 + 1) + j) else 0)
            + (if p ∈ g then ndcgWeight i0 else 0) := by
      rw [Finset.sum_range_succ']
      congr 1
      refine Finset.sum_congr rfl (fun j _ => ?_)
      rw [List.getD_cons_succ, show i0 + (j + 1) = (i0 + 1) + j from by omega]
    rw [Prod.mk.injEq]
    constructor
    · simp only [List.length_cons, hsplit1]
      by_cases h : i0 < g.length <;> simp [h, add_comm]
    · simp only [List.length_cons, hsplit2]
      by_cases h : p ∈ g <;> simp [h, add_comm]

theorem ndcgAux_fst (g w : List ℕ) : (ndcgAux g 0 w).1 = specMaxDcgCapped g w := by
  rw [ndcgAux_eq]
  simp only [zero_add, specMaxDcgCapped]
  have hf : (Finset.range w.length).filter (fun j => j < g.length)
      = Finset.range (min g.length w.length) := by
    ext j
    simp only [Finset.mem_filter, Finset.mem_range, lt_min_iff]
    constructor
    · exact fun h => ⟨h.2, h.1⟩
    · exact fun h => ⟨h.2, h.1⟩
  rw [← hf, Finset.sum_filter]

theorem ndcgAux_snd (g w : List ℕ) : (ndcgAux g 0 w).2 = specDcg g w := by
  rw [ndcgAux_eq]
  simp [specDcg]

theorem nCorrect_le_length_window (g w : List ℕ) : nCorrect g w ≤ w.length := by
  have h1 : (g.dedup.filter (fun x => x ∈ w)).Nodup :=
    List.Nodup.filter _ g.nodup_dedup
  have h2 : (g.dedup.filter (fun x => x ∈ w)).toFinset ⊆ w.toFinset := by
    intro x hx
    simp only [List.mem_toFinset, List.mem_filter, decide_eq_true_eq] at hx ⊢
    exact hx.2
  calc nCorrect g w
      = (g.dedup.filter (fun x => x ∈ w)).toFinset.card :=
        (List.toFinset_card_of_nodup h1).symm
    _ ≤ w.toFinset.card := Finset.card_le_card h2
    _ ≤ w.length := w.toFinset_card_le

theorem nCorrect_le_length_goal (g w : List ℕ) : nCorrect g w ≤ g.length :=
  le_trans (List.length_filter_le _ _) (List.Sublist.length_le g.dedup_sublist)

/-! ### The claims -/

/-- The single-instance evaluator of scenario 1: k = 10, goal = [1,2,3],
prediction = [2,5,1,9,9,9,9,9,9,9]. -/
def scenario1 : Evaluator :=
  { instances := [([1, 2, 3], [2, 5, 1, 9, 9, 9, 9, 9, 9, 9])], k := 10,
    interactions := none }

/-- C3: for an Evaluator with k = 10 holding one instance with
goal = [1,2,3] and prediction = [2,5,1,9,9,9,9,9,9,9], average_precision()
returns 2/10 and average_recall() returns 2/3. -/
theorem claim_C3_scenario1 :
    average_precision scenario1 = 2 / 10 ∧ average_recall scenario1 = 2 / 3 := by
  have h1 : nCorrect [1, 2, 3] (window 10 [2, 5, 1, 9, 9, 9, 9, 9, 9, 9]) = 2 := by
    decide
  constructor
  · simp [average_precision, scenario1, h1]
  · simp [average_recall, scenario1, h1]

/-- C10: the frequency counter built by DistributionCharacteristics maps
each item to its occurrence count, number_of_movies() returns the number
of distinct item identifiers of the input, and in particular on
[1,1,2,3,3,3] it returns 3. -/
theorem claim_C10_distribution :
    (∀ (movies : List ℕ),
        (∀ x, counterCount movies x = movies.count x)
          ∧ number_of_movies movies = movies.toFinset.card)
      ∧ number_of_movies [1, 1, 2, 3, 3, 3] = 3 := by
  refine ⟨fun movies =>
    ⟨fun x => counterCount_eq_count movies x, number_of_movies_eq_card movies⟩, ?_⟩
  decide

/-- C1 (amended): when every scored instance has a non-empty effective
window, average_ndcg() is the mean over the total instance count of the
per-instance dcg/max_dcg, where dcg sums 1/log2(2+i) over window positions
i whose item is in the goal and max_dcg sums 1/log2(2+i) over window
positions i < len(goal) — so capped at min(len(goal), window length). -/
theorem claim_C1_ndcg_capped (e : Evaluator) (h1 : e.instances ≠ [])
    (h2 : ∀ gp ∈ e.instances, 0 < gp.2.length → 0 < min gp.2.length e.k) :
    average_ndcg e
      = ((e.instances.map (fun gp =>
            if 0 < gp.2.length then
              specDcg gp.1 (window e.k gp.2) / specMaxDcgCapped gp.1 (window e.k gp.2)
            else 0)).sum)
        / (e.instances.length : ℝ) := by
  unfold average_ndcg
  rw [foldl_ite_add_map (fun gp : List ℕ × List ℕ => 0 < gp.2.length)
      (fun gp => (ndcgAux gp.1 0 (window e.k gp.2)).2 / (ndcgAux gp.1 0 (window e.k gp.2)).1)
      e.instances 0]
  simp only [ndcgAux_fst, ndcgAux_snd, zero_add]

/-- A concrete evaluator satisfying the hypotheses of the amended C1. -/
def ndcgWitnessEval : Evaluator :=
  { instances := [([1, 2, 3], [2, 5, 1])], k := 10, interactions := none }

/-- Witness for the amended C1 at a concrete input. -/
theorem claim_C1_ndcg_capped_witness :
    (ndcgWitnessEval.instances ≠ []
        ∧ ∀ gp ∈ ndcgWitnessEval.instances,
            0 < gp.2.length → 0 < min gp.2.length ndcgWitnessEval.k)
      ∧ average_ndcg ndcgWitnessEval
          = ((ndcgWitnessEval.instances.map (fun gp =>
                if 0 < gp.2.length then
                  specDcg gp.1 (window ndcgWitnessEval.k gp.2)
                    / specMaxDcgCapped gp.1 (window ndcgWitnessEval.k gp.2)
                else 0)).sum)
            / (ndcgWitnessEval.instances.length : ℝ) :=
  ⟨⟨by decide, by decide⟩,
    claim_C1_ndcg_capped ndcgWitnessEval (by decide) (by decide)⟩

/-- The evaluator refuting the uncapped max_dcg reading of C1: one
instance whose goal [1,2,3] is longer than its prediction [1], so the
window has length 1 while the claim sums the ideal dcg over 3 positions. -/
def ndcgCounterEval : Evaluator :=
  { instances := [([1, 2, 3], [1])], k := 10, interactions := none }

/-- Positivity of the DCG discount for positions 1 and 2 and its value 1
at position 0. -/
theorem ndcgWeight_facts :
    ndcgWeight 0 = 1 ∧ 0 < ndcgWeight 1 ∧ 0 < ndcgWeight 2 := by
  refine ⟨?_, ?_, ?_⟩
  · rw [ndcgWeight, show (2 : ℝ) + ((0 : ℕ) : ℝ) = 2 by norm_num,
      Real.logb_self_eq_one (by norm_num : (1 : ℝ) < 2)]
    norm_num
  · rw [ndcgWeight, show (2 : ℝ) + ((1 : ℕ) : ℝ) = 3 by norm_num]
    exact one_div_pos.2 (Real.logb_pos (by norm_num) (by norm_num))
  · rw [ndcgWeight, show (2 : ℝ) + ((2 : ℕ) : ℝ) = 4 by norm_num]
    exact one_div_pos.2 (Real.logb_pos (by norm_num) (by norm_num))

/-- C1 counterexample: on the evaluator above, average_ndcg() differs from
the claim's formula with max_dcg uncapped by the window length. -/
theorem claim_C1_counterexample :
    average_ndcg ndcgCounterEval ≠ ndcgClaimedFormula ndcgCounterEval := by
  obtain ⟨hw0, hw1, hw2⟩ := ndcgWeight_facts
  have hwin : window 10 [1] = [1] := by decide
  have hL : average_ndcg ndcgCounterEval = 1 := by
    unfold average_ndcg ndcgCounterEval
    simp only [List.foldl_cons, List.foldl_nil, hwin, ndcgAux, List.length_cons,
      List.length_nil, List.length_singleton]
    norm_num [hw0]
  have hdcg : specDcg [1, 2, 3] [1] = 1 := by
    unfold specDcg
    rw [List.length_singleton, Finset.sum_range_one]
    simp [hw0]
  have hmax : specMaxDcgUncapped [1, 2, 3] = 1 + ndcgWeight 1 + ndcgWeight 2 := by
    unfold specMaxDcgUncapped
    rw [show ([1, 2, 3] : List ℕ).length = 2 + 1 from rfl, Finset.sum_range_succ,
      Finset.sum_range_succ, Finset.sum_range_one, hw0]
  have hR : ndcgClaimedFormula ndcgCounterEval < 1 := by
    unfold ndcgClaimedFormula ndcgCounterEval
    simp only [List.map_cons, List.map_nil, List.sum_cons, List.sum_nil, hwin]
    rw [if_pos (by norm_num : 0 < ([1] : List ℕ).length), hdcg, hmax]
    have hden : (0 : ℝ) < 1 + ndcgWeight 1 + ndcgWeight 2 := by linarith
    have hlt : (1 : ℝ) / (1 + ndcgWeight 1 + ndcgWeight 2) < 1 :=
      (div_lt_one hden).2 (by linarith)
    have hlen : ((([([1, 2, 3], [1])] : List (List ℕ × List ℕ)).length : ℕ) : ℝ) = 1 := by
      norm_num
    calc (1 / (1 + ndcgWeight 1 + ndcgWeight 2) + 0)
          / ((([([1, 2, 3], [1])] : List (List ℕ × List ℕ)).length : ℕ) : ℝ)
        = 1 / (1 + ndcgWeight 1 + ndcgWeight 2) := by rw [hlen, add_zero, div_one]
      _ < 1 := hlt
  rw [hL]
  exact ne_of_gt hR

/-- A list of rationals bounded by 1 sums to at most its length. -/
theorem list_sum_le_length (l : List ℚ) (h : ∀ x ∈ l, x ≤ 1) :
    l.sum ≤ (l.length : ℚ) := by
  induction l with
  | nil => simp
  | cons x l ih =>
    simp only [List.sum_cons, List.length_cons]
    have hx := h x (by simp)
    have hl := ih (fun y hy => h y (by simp [hy]))
    push_cast
    linarith

/-- The mean of a non-empty list of rationals lying in [0,1] lies in [0,1]. -/
theorem mean_mem_unit (l : List ℚ) (hne : l ≠ [])
    (h0 : ∀ x ∈ l, 0 ≤ x) (h1 : ∀ x ∈ l, x ≤ 1) :
    0 ≤ l.sum / (l.length : ℚ) ∧ l.sum / (l.length : ℚ) ≤ 1 := by
  have hlen : (0 : ℚ) < (l.length : ℚ) := by
    exact_mod_cast List.length_pos.2 hne
  refine ⟨div_nonneg (List.sum_nonneg h0) (le_of_lt hlen), ?_⟩
  rw [div_le_one hlen]
  exact list_sum_le_length l h1

/-- The per-instance precision contribution lies in [0,1]. -/
theorem precision_term_bounds (k : ℕ) (gp : List ℕ × List ℕ) :
    (0 : ℚ) ≤ (if 0 < gp.2.length then
        (nCorrect gp.1 (window k gp.2) : ℚ) / ((min gp.2.length k : ℕ) : ℚ) else 0)
      ∧ (if 0 < gp.2.length then
        (nCorrect gp.1 (window k gp.2) : ℚ) / ((min gp.2.length k : ℕ) : ℚ) else 0) ≤ 1 := by
  by_cases hg : 0 < gp.2.length
  · rw [if_pos hg]
    refine ⟨div_nonneg (Nat.cast_nonneg _) (Nat.cast_nonneg _), ?_⟩
    by_cases hmin : min gp.2.length k = 0
    · rw [window_eq_nil k gp.2 hmin, nCorrect_nil, Nat.cast_zero, zero_div]
      norm_num
    · have hpos : (0 : ℚ) < ((min gp.2.length k : ℕ) : ℚ) := by
        exact_mod_cast Nat.pos_of_ne_zero hmin
      rw [div_le_one hpos]
      have hb : nCorrect gp.1 (window k gp.2) ≤ min gp.2.length k := by
        have := nCorrect_le_length_window gp.1 (window k gp.2)
        rwa [length_window] at this
      exact_mod_cast hb
  · rw [if_neg hg]
    norm_num

/-- The per-instance recall contribution lies in [0,1]. -/
theorem recall_term_bounds (k : ℕ) (gp : List ℕ × List ℕ) :
    (0 : ℚ) ≤ (if 0 < gp.1.length then
        (nCorrect gp.1 (window k gp.2) : ℚ) / (gp.1.length : ℚ) else 0)
      ∧ (if 0 < gp.1.length then
        (nCorrect gp.1 (window k gp.2) : ℚ) / (gp.1.length : ℚ) else 0) ≤ 1 := by
  by_cases hg : 0 < gp.1.length
  · rw [if_pos hg]
    refine ⟨div_nonneg (Nat.cast_nonneg _) (Nat.cast_nonneg _), ?_⟩
    have hpos : (0 : ℚ) < (gp.1.length : ℚ) := by exact_mod_cast hg
    rw [div_le_one hpos]
    exact_mod_cast nCorrect_le_length_goal gp.1 (window k gp.2)
  · rw [if_neg hg]
    norm_num

/-- C4: for every non-empty instance list (duplicates permitted anywhere),
average_precision() and average_recall() lie in [0,1]. -/
theorem claim_C4_bounds (e : Evaluator) (h : e.instances ≠ []) :
    (0 ≤ average_precision e ∧ average_precision e ≤ 1)
      ∧ (0 ≤ average_recall e ∧ average_recall e ≤ 1) := by
  constructor
  · unfold average_precision
    rw [foldl_ite_add_map (fun gp : List ℕ × List ℕ => 0 < gp.2.length)
        (fun gp => (nCorrect gp.1 (window e.k gp.2) : ℚ) / ((min gp.2.length e.k : ℕ) : ℚ))
        e.instances 0, zero_add]
    have hlen : (e.instances.length : ℚ)
        = ((e.instances.map (fun gp =>
            if 0 < gp.2.length then
              (nCorrect gp.1 (window e.k gp.2) : ℚ) / ((min gp.2.length e.k : ℕ) : ℚ)
            else 0)).length : ℚ) := by
      rw [List.length_map]
    rw [hlen]
    refine mean_mem_unit _ (by simpa using h) ?_ ?_
    · intro x hx
      obtain ⟨gp, _, rfl⟩ := List.mem_map.1 hx
      exact (precision_term_bounds e.k gp).1
    · intro x hx
      obtain ⟨gp, _, rfl⟩ := List.mem_map.1 hx
      exact (precision_term_bounds e.k gp).2
  · unfold average_recall
    rw [foldl_ite_add_map (fun gp : List ℕ × List ℕ => 0 < gp.1.length)
        (fun gp => (nCorrect gp.1 (window e.k gp.2) : ℚ) / (gp.1.length : ℚ))
        e.instances 0, zero_add]
    have hlen : (e.instances.length : ℚ)
        = ((e.instances.map (fun gp =>
            if 0 < gp.1.length then
              (nCorrect gp.1 (window e.k gp.2) : ℚ) / (gp.1.length : ℚ)
            else 0)).length : ℚ) := by
      rw [List.length_map]
    rw [hlen]
    refine mean_mem_unit _ (by simpa using h) ?_ ?_
    · intro x hx
      obtain ⟨gp, _, rfl⟩ := List.mem_map.1 hx
      exact (recall_term_bounds e.k gp).1
    · intro x hx
      obtain ⟨gp, _, rfl⟩ := List.mem_map.1 hx
      exact (recall_term_bounds e.k gp).2

/-- Witness for C4 at a concrete input. -/
theorem claim_C4_bounds_witness :
    scenario1.instances ≠ []
      ∧ ((0 ≤ average_precision scenario1 ∧ average_precision scenario1 ≤ 1)
          ∧ (0 ≤ average_recall scenario1 ∧ average_recall scenario1 ≤ 1)) :=
  ⟨by decide, claim_C4_bounds scenario1 (by decide)⟩

/-- C5: every item of get_correct_predictions() lies in the goal and in the
effective prediction window of one and the same instance; consequently it
also occurs in get_all_predictions() and in get_all_goals(). -/
theorem claim_C5_correct_subset (e : Evaluator) (x : ℕ)
    (hx : x ∈ get_correct_predictions e) :
    (∃ gp ∈ e.instances, x ∈ gp.1 ∧ x ∈ window e.k gp.2)
      ∧ x ∈ get_all_predictions e ∧ x ∈ get_all_goals e := by
  unfold get_correct_predictions at hx
  rw [List.mem_flatMap] at hx
  obtain ⟨gp, hgp, hmem⟩ := hx
  rw [List.mem_filter] at hmem
  have hgoal : x ∈ gp.1 := List.mem_dedup.1 hmem.1
  have hwin : x ∈ window e.k gp.2 := by
    have h2 := hmem.2
    simpa using h2
  refine ⟨⟨gp, hgp, hgoal, hwin⟩, ?_, ?_⟩
  · unfold get_all_predictions
    rw [List.mem_flatMap]
    exact ⟨gp, hgp, hwin⟩
  · unfold get_all_goals
    rw [List.mem_flatMap]
    exact ⟨gp, hgp, hgoal⟩

/-- Witness for C5 at a concrete input. -/
theorem claim_C5_correct_subset_witness :
    (1 : ℕ) ∈ get_correct_predictions scenario1
      ∧ ((∃ gp ∈ scenario1.instances, 1 ∈ gp.1 ∧ 1 ∈ window scenario1.k gp.2)
          ∧ 1 ∈ get_all_predictions scenario1 ∧ 1 ∈ get_all_goals scenario1) :=
  ⟨by decide, claim_C5_correct_subset scenario1 1 (by decide)⟩

/-- When every goal is non-empty, the strict-success loop returns the
number of instances whose first goal item is in the window. -/
theorem strictScore_eq_some (k : ℕ) :
    ∀ (l : List (List ℕ × List ℕ)), (∀ gp ∈ l, gp.1 ≠ []) →
      strictScore k l
        = some (l.filter (fun gp => gp.1.headI ∈ window k gp.2)).length
  | [], _ => by simp [strictScore]
  | (goal, pred) :: rest, h => by
    have hne : goal ≠ [] := h (goal, pred) (by simp)
    match goal, hne with
    | g0 :: gtail, _ =>
      rw [strictScore, strictScore_eq_some k rest (fun gp hgp => h gp (by simp [hgp]))]
      simp only [Option.map_some']
      by_cases hm : g0 ∈ window k pred
      · simp [List.filter_cons, hm, Nat.add_comm]
      · simp [List.filter_cons, hm]

/-- An empty goal anywhere makes the strict-success loop raise. -/
theorem strictScore_eq_none (k : ℕ) :
    ∀ (l : List (List ℕ × List ℕ)), (∃ gp ∈ l, gp.1 = []) →
      strictScore k l = none
  | [], h => by simp at h
  | (goal, pred) :: rest, h => by
    match goal with
    | [] => rw [strictScore]
    | g0 :: gtail =>
      have hrest : ∃ gp ∈ rest, gp.1 = [] := by
        obtain ⟨gp, hgp, hnil⟩ := h
        rcases List.mem_cons.1 hgp with heq | hmem
        · exfalso
          rw [heq] at hnil
          exact List.cons_ne_nil g0 gtail hnil
        · exact ⟨gp, hmem, hnil⟩
      rw [strictScore, strictScore_eq_none k rest hrest]
      rfl

/-- C7: with a non-empty instance list whose goals are all non-empty,
strict_success_percentage() returns the fraction of instances whose first
goal item lies in the effective prediction window; with any empty goal the
call fails. -/
theorem claim_C7_strict (e : Evaluator) :
    (e.instances ≠ [] → (∀ gp ∈ e.instances, gp.1 ≠ []) →
        strict_success_percentage e
          = some (((e.instances.filter
                (fun gp => gp.1.headI ∈ window e.k gp.2)).length : ℚ)
              / (e.instances.length : ℚ)))
      ∧ ((∃ gp ∈ e.instances, gp.1 = []) → strict_success_percentage e = none) := by
  constructor
  · intro hne hgoals
    unfold strict_success_percentage
    rw [strictScore_eq_some e.k e.instances hgoals]
    have hlen : ¬e.instances.length = 0 := by
      simpa [List.length_eq_zero] using hne
    simp [hlen]
  · intro h
    unfold strict_success_percentage
    rw [strictScore_eq_none e.k e.instances h]

/-- Witness for C7 at a concrete input. -/
theorem claim_C7_strict_witness :
    (scenario1.instances ≠ [] ∧ ∀ gp ∈ scenario1.instances, gp.1 ≠ [])
      ∧ strict_success_percentage scenario1
          = some (((scenario1.instances.filter
                (fun gp => gp.1.headI ∈ window scenario1.k gp.2)).length : ℚ)
              / (scenario1.instances.length : ℚ)) :=
  ⟨⟨by decide, by decide⟩, (claim_C7_strict scenario1).1 (by decide) (by decide)⟩

/-- The optMap loop succeeds exactly when every element succeeds. -/
theorem optMap_isSome {α β : Type} (f : α → Option β) :
    ∀ (l : List α), (optMap f l).isSome = true ↔ ∀ a ∈ l, (f a).isSome = true
  | [] => by simp [optMap]
  | a :: l => by
    cases hfa : f a with
    | none => simp [optMap, hfa]
    | some b =>
      simp only [optMap, hfa, Option.isSome_map']
      rw [optMap_isSome f l]
      simp [hfa]

/-- The argsort of a list has the same length as the list. -/
theorem argsort_length (l : List ℕ) : (argsort l).length = l.length := by
  unfold argsort
  rw [List.length_insertionSort, List.length_range]

/-- C9: get_rank_comparison() returns normally exactly when every goal item
identifier is a valid index into its instance's prediction list; any goal
item with an identifier at least len(prediction) makes the call fail. -/
theorem claim_C9_rank_partial (e : Evaluator) :
    (get_rank_comparison e).isSome = true
      ↔ ∀ gp ∈ e.instances, ∀ g ∈ gp.1, g < gp.2.length := by
  unfold get_rank_comparison
  rw [Option.isSome_map', optMap_isSome]
  refine forall_congr' (fun gp => imp_congr_right (fun _ => ?_))
  rw [Option.isSome_map', optMap_isSome]
  refine forall_congr' (fun g => imp_congr_right (fun _ => ?_))
  rw [Option.isSome_iff_ne_none, ne_eq, List.get?_eq_none, argsort_length]
  omega

/-- The top-1% list has exactly `n_items // 100` entries. -/
theorem pop_items_length (d : Dataset) :
    (pop_items d).length = d.n_items / 100 := by
  unfold pop_items
  rw [List.length_take, List.length_insertionSort, List.length_range]
  exact min_eq_left (Nat.div_le_self _ _)

/-- Every selected top item is at least as popular as every non-selected
item: the take of the descending sort is a valid popularity partition. -/
theorem pop_items_dominate (d : Dataset) :
    ∀ i ∈ pop_items d, ∀ j < d.n_items, j ∉ pop_items d →
      d.item_popularity j ≤ d.item_popularity i := by
  intro i hi j hj hnj
  haveI htot : IsTotal ℕ (fun a b => d.item_popularity b ≤ d.item_popularity a) :=
    ⟨fun a b => le_total _ _⟩
  haveI htr : IsTrans ℕ (fun a b => d.item_popularity b ≤ d.item_popularity a) :=
    ⟨fun a b c hab hbc => le_trans hbc hab⟩
  have hsorted :
      List.Pairwise (fun a b => d.item_popularity b ≤ d.item_popularity a)
        ((List.range d.n_items).insertionSort
          (fun a b => d.item_popularity b ≤ d.item_popularity a)) :=
    List.sorted_insertionSort _ (List.range d.n_items)
  have hjmem : j ∈ (List.range d.n_items).insertionSort
      (fun a b => d.item_popularity b ≤ d.item_popularity a) :=
    (List.mem_insertionSort _).2 (List.mem_range.2 hj)
  have hjdrop : j ∈ ((List.range d.n_items).insertionSort
      (fun a b => d.item_popularity b ≤ d.item_popularity a)).drop
        (d.n_items / 100) := by
    rcases (List.mem_append.1 (by
        rwa [List.take_append_drop
          (d.n_items / 100)
          ((List.range d.n_items).insertionSort
            (fun a b => d.item_popularity b ≤ d.item_popularity a))]
          : j ∈ ((List.range d.n_items).insertionSort
              (fun a b => d.item_popularity b ≤ d.item_popularity a)).take
                (d.n_items / 100)
            ++ ((List.range d.n_items).insertionSort
              (fun a b => d.item_popularity b ≤ d.item_popularity a)).drop
                (d.n_items / 100))) with htake | hdrop
    · exact absurd htake hnj
    · exact hdrop
  have hpw := List.pairwise_append.1 (by
    rwa [List.take_append_drop
      (d.n_items / 100)
      ((List.range d.n_items).insertionSort
        (fun a b => d.item_popularity b ≤ d.item_popularity a))])
  exact hpw.2.2 i hi j hjdrop

/-- C6: success_in_top_items() fails by zero division exactly when there
are no correct predictions; otherwise it returns the fraction of correct
predictions among the top-1% most popular items, the top-1% set holding
`n_items // 100` items each at least as popular as every item left out. -/
theorem claim_C6_success_top (d : Dataset) (e : Evaluator) :
    (get_correct_predictions e = [] → success_in_top_items d e = none)
      ∧ (get_correct_predictions e ≠ [] →
          success_in_top_items d e
            = some ((((get_correct_predictions e).filter
                  (fun i => i ∈ pop_items d)).length : ℚ)
                / ((get_correct_predictions e).length : ℚ)))
      ∧ (pop_items d).length = d.n_items / 100
      ∧ (∀ i ∈ pop_items d, ∀ j < d.n_items, j ∉ pop_items d →
          d.item_popularity j ≤ d.item_popularity i) := by
  refine ⟨?_, ?_, pop_items_length d, pop_items_dominate d⟩
  · intro h
    simp [success_in_top_items, h]
  · intro h
    have hlen : ¬(get_correct_predictions e).length = 0 := by
      simpa [List.length_eq_zero] using h
    simp [success_in_top_items, hlen]

/-- The dataset collaborator for the C6 witness. -/
def witnessDataset : Dataset :=
  { n_items := 0, item_popularity := fun _ => 0, n_users := 0,
    interactionsFile := fun _ _ => 0 }

/-- Witness for C6 at a concrete input. -/
theorem claim_C6_success_top_witness :
    get_correct_predictions scenario1 ≠ []
      ∧ success_in_top_items witnessDataset scenario1
          = some ((((get_correct_predictions scenario1).filter
                (fun i => i ∈ pop_items witnessDataset)).length : ℚ)
              / ((get_correct_predictions scenario1).length : ℚ)) :=
  ⟨by decide, (claim_C6_success_top witnessDataset scenario1).2.1 (by decide)⟩

/-! ### The lazily cached interaction matrix -/

/-- The interaction matrix an evaluator state effectively computes with:
the cached one when present, otherwise the one the load would produce. -/
noncomputable def effMatrix (d : Dataset) (e : Evaluator) : ℕ → ℕ → ℝ :=
  e.interactions.getD d.interactionsFile

/-- One `_intra_list_similarity` call: its value is determined by the
effective matrix, and it changes neither the instances, nor k, nor the
effective matrix. -/
theorem ils_call (d : Dataset) (s : Evaluator) (items : List ℕ) :
    (intra_list_similarity d s items).1 = intraListSim (effMatrix d s) d.n_users items
      ∧ (intra_list_similarity d s items).2.instances = s.instances
      ∧ (intra_list_similarity d s items).2.k = s.k
      ∧ effMatrix d (intra_list_similarity d s items).2 = effMatrix d s := by
  cases h : s.interactions with
  | some M => simp [intra_list_similarity, h, effMatrix]
  | none => simp [intra_list_similarity, h, effMatrix]

/-- The loop of `average_intra_list_similarity()`: its value is the pure
fold against the effective matrix, and the state keeps its instances, its
k and its effective matrix. -/
theorem ilsFold (d : Dataset) (kk : ℕ) (M : ℕ → ℕ → ℝ) :
    ∀ (l : List (List ℕ × List ℕ)) (a : ℝ) (s : Evaluator), effMatrix d s = M →
      (l.foldl (fun acc gp =>
          if 0 < gp.2.length then
            (acc.1 + (intra_list_similarity d acc.2 (window kk gp.2)).1,
             (intra_list_similarity d acc.2 (window kk gp.2)).2)
          else acc) (a, s)).1
        = l.foldl (fun acc gp =>
            if 0 < gp.2.length then acc + intraListSim M d.n_users (window kk gp.2)
            else acc) a
      ∧ (l.foldl (fun acc gp =>
          if 0 < gp.2.length then
            (acc.1 + (intra_list_similarity d acc.2 (window kk gp.2)).1,
             (intra_list_similarity d acc.2 (window kk gp.2)).2)
          else acc) (a, s)).2.instances = s.instances
      ∧ (l.foldl (fun acc gp =>
          if 0 < gp.2.length then
            (acc.1 + (intra_list_similarity d acc.2 (window kk gp.2)).1,
             (intra_list_similarity d acc.2 (window kk gp.2)).2)
          else acc) (a, s)).2.k = s.k
      ∧ effMatrix d (l.foldl (fun acc gp =>
          if 0 < gp.2.length then
            (acc.1 + (intra_list_similarity d acc.2 (window kk gp.2)).1,
             (intra_list_similarity d acc.2 (window kk gp.2)).2)
          else acc) (a, s)).2 = M
  | [], a, s, hM => ⟨rfl, rfl, rfl, hM⟩
  | gp :: l, a, s, hM => by
    by_cases hg : 0 < gp.2.length
    · obtain ⟨hv, hi, hk, hm⟩ := ils_call d s (window kk gp.2)
      have ih := ilsFold d kk M l (a + (intra_list_similarity d s (window kk gp.2)).1)
        (intra_list_similarity d s (window kk gp.2)).2 (by rw [hm, hM])
      simp only [List.foldl_cons, if_pos hg]
      refine ⟨?_, ?_, ?_, ih.2.2.2⟩
      · rw [ih.1, hv, hM]
      · rw [ih.2.1, hi]
      · rw [ih.2.2.1, hk]
    · simp only [List.foldl_cons, if_neg hg]
      exact ilsFold d kk M l a s hM

/-- `average_intra_list_similarity()` in terms of the effective matrix. -/
theorem ails_spec (d : Dataset) (e : Evaluator) :
    (average_intra_list_similarity d e).1
        = (e.instances.foldl (fun acc gp =>
            if 0 < gp.2.length then
              acc + intraListSim (effMatrix d e) d.n_users (window e.k gp.2)
            else acc) 0) / (e.instances.length : ℝ)
      ∧ (average_intra_list_similarity d e).2.instances = e.instances
      ∧ (average_intra_list_similarity d e).2.k = e.k
      ∧ effMatrix d (average_intra_list_similarity d e).2 = effMatrix d e := by
  obtain ⟨h1, h2, h3, h4⟩ :=
    ilsFold d e.k (effMatrix d e) e.instances 0 e rfl
  refine ⟨?_, h2, h3, h4⟩
  rw [← h1]
  rfl

/-- A state that already carries a cached matrix is left untouched by the
similarity loop. -/
theorem ilsFold_state_of_some (d : Dataset) (kk : ℕ) :
    ∀ (l : List (List ℕ × List ℕ)) (a : ℝ) (s : Evaluator),
      s.interactions.isSome = true →
      (l.foldl (fun acc gp =>
          if 0 < gp.2.length then
            (acc.1 + (intra_list_similarity d acc.2 (window kk gp.2)).1,
             (intra_list_similarity d acc.2 (window kk gp.2)).2)
          else acc) (a, s)).2 = s
  | [], _, _, _ => rfl
  | gp :: l, a, s, hs => by
    by_cases hg : 0 < gp.2.length
    · obtain ⟨M, hM⟩ := Option.isSome_iff_exists.1 hs
      have hcall : intra_list_similarity d s (window kk gp.2)
          = (intraListSim M d.n_users (window kk gp.2), s) := by
        simp [intra_list_similarity, hM]
      simp only [List.foldl_cons, if_pos hg, hcall]
      exact ilsFold_state_of_some d kk l _ s hs
    · simp only [List.foldl_cons, if_neg hg]
      exact ilsFold_state_of_some d kk l a s hs

/-- From a state with no cached matrix, the similarity loop either never
touches the cache (no scored instance) or ends with the loaded matrix. -/
theorem ilsFold_state_of_none (d : Dataset) (kk : ℕ) :
    ∀ (l : List (List ℕ × List ℕ)) (a : ℝ) (s : Evaluator),
      s.interactions = none →
      ((∀ gp ∈ l, gp.2.length = 0)
          ∧ (l.foldl (fun acc gp =>
              if 0 < gp.2.length then
                (acc.1 + (intra_list_similarity d acc.2 (window kk gp.2)).1,
                 (intra_list_similarity d acc.2 (window kk gp.2)).2)
              else acc) (a, s)).2 = s)
        ∨ (l.foldl (fun acc gp =>
            if 0 < gp.2.length then
              (acc.1 + (intra_list_similarity d acc.2 (window kk gp.2)).1,
               (intra_list_similarity d acc.2 (window kk gp.2)).2)
            else acc) (a, s)).2 = { s with interactions := some d.interactionsFile }
  | [], _, _, _ => Or.inl ⟨by simp, rfl⟩
  | gp :: l, a, s, hs => by
    by_cases hg : 0 < gp.2.length
    · have hcall : intra_list_similarity d s (window kk gp.2)
          = (intraListSim d.interactionsFile d.n_users (window kk gp.2),
             { s with interactions := some d.interactionsFile }) := by
        simp [intra_list_similarity, hs]
      refine Or.inr ?_
      simp only [List.foldl_cons, if_pos hg, hcall]
      exact ilsFold_state_of_some d kk l _ _ rfl
    · simp only [List.foldl_cons, if_neg hg]
      rcases ilsFold_state_of_none d kk l a s hs with ⟨hall, hst⟩ | hst
      · exact Or.inl ⟨fun q hq => by
          rcases List.mem_cons.1 hq with rfl | hm
          · omega
          · exact hall q hm, hst⟩
      · exact Or.inr hst

/-- A fold over instances none of which is scored leaves the state alone. -/
theorem ilsFold_state_of_no_scored (d : Dataset) (kk : ℕ) :
    ∀ (l : List (List ℕ × List ℕ)) (a : ℝ) (s : Evaluator),
      (∀ gp ∈ l, gp.2.length = 0) →
      (l.foldl (fun acc gp =>
          if 0 < gp.2.length then
            (acc.1 + (intra_list_similarity d acc.2 (window kk gp.2)).1,
             (intra_list_similarity d acc.2 (window kk gp.2)).2)
          else acc) (a, s)).2 = s
  | [], _, _, _ => rfl
  | gp :: l, a, s, h => by
    have hg : ¬0 < gp.2.length := by
      have := h gp (by simp)
      omega
    simp only [List.foldl_cons, if_neg hg]
    exact ilsFold_state_of_no_scored d kk l a s (fun q hq => h q (by simp [hq]))

/-- Calling `average_intra_list_similarity` a second time leaves the state
of the first call untouched. -/
theorem ails_idempotent_state (d : Dataset) (e : Evaluator) :
    (average_intra_list_similarity d (average_intra_list_similarity d e).2).2
      = (average_intra_list_similarity d e).2 := by
  cases he : e.interactions with
  | some M =>
    have h1 : (average_intra_list_similarity d e).2 = e :=
      ilsFold_state_of_some d e.k e.instances 0 e (by simp [he])
    rw [h1]
    exact h1
  | none =>
    rcases ilsFold_state_of_none d e.k e.instances 0 e he with ⟨hns, hst⟩ | hst
    · have h1 : (average_intra_list_similarity d e).2 = e := hst
      rw [h1]
      have h2 : (average_intra_list_similarity d e).2 = e :=
        ilsFold_state_of_no_scored d e.k e.instances 0 e hns
      exact h2
    · have h1 : (average_intra_list_similarity d e).2
          = { e with interactions := some d.interactionsFile } := hst
      rw [h1]
      exact ilsFold_state_of_some d
        ({ e with interactions := some d.interactionsFile } : Evaluator).k
        ({ e with interactions := some d.interactionsFile } : Evaluator).instances 0
        { e with interactions := some d.interactionsFile } (by simp)

/-- Calling `average_intra_list_similarity` a second time returns the same
value as the first call. -/
theorem ails_idempotent_value (d : Dataset) (e : Evaluator) :
    (average_intra_list_similarity d (average_intra_list_similarity d e).2).1
      = (average_intra_list_similarity d e).1 := by
  obtain ⟨h1, h2, h3, h4⟩ := ails_spec d e
  obtain ⟨g1, g2, g3, g4⟩ := ails_spec d (average_intra_list_similarity d e).2
  rw [g1, h1, h2, h3, h4]

/-- Every metric and getter reads only the instances and the cutoff k, not
the cached matrix. -/
theorem metrics_of_fields (d : Dataset) (e1 e2 : Evaluator)
    (hi : e1.instances = e2.instances) (hk : e1.k = e2.k) :
    average_precision e1 = average_precision e2
      ∧ average_recall e1 = average_recall e2
      ∧ average_ndcg e1 = average_ndcg e2
      ∧ average_novelty d e1 = average_novelty d e2
      ∧ strict_success_percentage e1 = strict_success_percentage e2
      ∧ general_success_percentage e1 = general_success_percentage e2
      ∧ success_in_top_items d e1 = success_in_top_items d e2
      ∧ get_all_goals e1 = get_all_goals e2
      ∧ get_strict_goals e1 = get_strict_goals e2
      ∧ get_all_predictions e1 = get_all_predictions e2
      ∧ get_correct_predictions e1 = get_correct_predictions e2
      ∧ get_correct_strict_predictions e1 = get_correct_strict_predictions e2
      ∧ get_rank_comparison e1 = get_rank_comparison e2 := by
  obtain ⟨i1, k1, m1⟩ := e1
  obtain ⟨i2, k2, m2⟩ := e2
  dsimp only at hi hk
  subst hi
  subst hk
  exact ⟨rfl, rfl, rfl, rfl, rfl, rfl, rfl, rfl, rfl, rfl, rfl, rfl, rfl⟩

/-- C8: with no intervening add_instance, a repeated call of any metric or
getter returns the same result; in particular the lazy loading and caching
of the interaction matrix during average_intra_list_similarity() changes
neither its own repeated value and state nor any other metric's value. -/
theorem claim_C8_idempotent (d : Dataset) (e : Evaluator) :
    ((average_intra_list_similarity d (average_intra_list_similarity d e).2).1
        = (average_intra_list_similarity d e).1)
      ∧ ((average_intra_list_similarity d (average_intra_list_similarity d e).2).2
        = (average_intra_list_similarity d e).2)
      ∧ average_precision (average_intra_list_similarity d e).2 = average_precision e
      ∧ average_recall (average_intra_list_similarity d e).2 = average_recall e
      ∧ average_ndcg (average_intra_list_similarity d e).2 = average_ndcg e
      ∧ average_novelty d (average_intra_list_similarity d e).2 = average_novelty d e
      ∧ strict_success_percentage (average_intra_list_similarity d e).2
          = strict_success_percentage e
      ∧ general_success_percentage (average_intra_list_similarity d e).2
          = general_success_percentage e
      ∧ success_in_top_items d (average_intra_list_similarity d e).2
          = success_in_top_items d e
      ∧ get_all_goals (average_intra_list_similarity d e).2 = get_all_goals e
      ∧ get_strict_goals (average_intra_list_similarity d e).2 = get_strict_goals e
      ∧ get_all_predictions (average_intra_list_similarity d e).2
          = get_all_predictions e
      ∧ get_correct_predictions (average_intra_list_similarity d e).2
          = get_correct_predictions e
      ∧ get_correct_strict_predictions (average_intra_list_similarity d e).2
          = get_correct_strict_predictions e
      ∧ get_rank_comparison (average_intra_list_similarity d e).2
          = get_rank_comparison e := by
  obtain ⟨h1, h2, h3, h4⟩ := ails_spec d e
  have hm := metrics_of_fields d (average_intra_list_similarity d e).2 e h2 h3
  exact ⟨ails_idempotent_value d e, ails_idempotent_state d e, hm.1, hm.2.1,
    hm.2.2.1, hm.2.2.2.1, hm.2.2.2.2.1, hm.2.2.2.2.2.1, hm.2.2.2.2.2.2.1,
    hm.2.2.2.2.2.2.2.1, hm.2.2.2.2.2.2.2.2.1, hm.2.2.2.2.2.2.2.2.2.1,
    hm.2.2.2.2.2.2.2.2.2.2.1, hm.2.2.2.2.2.2.2.2.2.2.2.1,
    hm.2.2.2.2.2.2.2.2.2.2.2.2⟩

/-! ### Truncation invariance -/

/-- Replace each instance's prediction by its effective window. -/
def truncEval (e : Evaluator) : Evaluator :=
  { e with instances := e.instances.map (fun gp => (gp.1, window e.k gp.2)) }

theorem foldl_fun_congr {α β : Type} {f g : β → α → β} (h : ∀ b x, f b x = g b x)
    (l : List α) (a : β) : l.foldl f a = l.foldl g a := by
  rw [show f = g from funext (fun b => funext (h b))]

theorem flatMap_fun_congr {α β : Type} {f g : α → List β} (h : ∀ a, f a = g a)
    (l : List α) : l.flatMap f = l.flatMap g := by
  rw [show f = g from funext h]

theorem optMap_fun_congr {α β : Type} {f g : α → Option β} (h : ∀ a, f a = g a)
    (l : List α) : optMap f l = optMap g l := by
  rw [show f = g from funext h]

theorem optMap_map {α β γ : Type} (g : α → β) (f : β → Option γ) :
    ∀ (l : List α), optMap f (l.map g) = optMap (fun x => f (g x)) l
  | [] => rfl
  | a :: l => by
    simp only [List.map_cons, optMap]
    rw [optMap_map g f l]

theorem intraListSim_nil (M : ℕ → ℕ → ℝ) (nU : ℕ) : intraListSim M nU [] = 0 := by
  simp [intraListSim]

theorem precision_step_trunc (k : ℕ) (acc : ℚ) (gp : List ℕ × List ℕ) :
    (if 0 < (window k gp.2).length then
        acc + (nCorrect gp.1 (window k (window k gp.2)) : ℚ)
          / ((min (window k gp.2).length k : ℕ) : ℚ)
      else acc)
      = (if 0 < gp.2.length then
        acc + (nCorrect gp.1 (window k gp.2) : ℚ) / ((min gp.2.length k : ℕ) : ℚ)
      else acc) := by
  rw [window_window, min_length_window, length_window]
  by_cases hmin : 0 < min gp.2.length k
  · rw [if_pos hmin, if_pos (lt_of_lt_of_le hmin (min_le_left _ _))]
  · rw [if_neg hmin]
    by_cases hp : 0 < gp.2.length
    · rw [if_pos hp, window_eq_nil k gp.2 (Nat.eq_zero_of_not_pos hmin), nCorrect_nil]
      simp
    · rw [if_neg hp]

theorem recall_step_trunc (k : ℕ) (acc : ℚ) (gp : List ℕ × List ℕ) :
    (if 0 < gp.1.length then
        acc + (nCorrect gp.1 (window k (window k gp.2)) : ℚ) / (gp.1.length : ℚ)
      else acc)
      = (if 0 < gp.1.length then
        acc + (nCorrect gp.1 (window k gp.2) : ℚ) / (gp.1.length : ℚ)
      else acc) := by
  rw [window_window]

theorem general_step_trunc (k : ℕ) (acc : ℚ) (gp : List ℕ × List ℕ) :
    (acc + if 0 < nCorrect gp.1 (window k (window k gp.2)) then (1 : ℚ) else 0)
      = (acc + if 0 < nCorrect gp.1 (window k gp.2) then (1 : ℚ) else 0) := by
  rw [window_window]

theorem ndcg_step_trunc (k : ℕ) (acc : ℝ) (gp : List ℕ × List ℕ) :
    (if 0 < (window k gp.2).length then
        acc + (ndcgAux gp.1 0 (window k (window k gp.2))).2
          / (ndcgAux gp.1 0 (window k (window k gp.2))).1
      else acc)
      = (if 0 < gp.2.length then
        acc + (ndcgAux gp.1 0 (window k gp.2)).2 / (ndcgAux gp.1 0 (window k gp.2)).1
      else acc) := by
  rw [window_window, length_window]
  by_cases hmin : 0 < min gp.2.length k
  · rw [if_pos hmin, if_pos (lt_of_lt_of_le hmin (min_le_left _ _))]
  · rw [if_neg hmin]
    by_cases hp : 0 < gp.2.length
    · rw [if_pos hp, window_eq_nil k gp.2 (Nat.eq_zero_of_not_pos hmin)]
      simp [ndcgAux]
    · rw [if_neg hp]

theorem novelty_step_trunc (d : Dataset) (k : ℕ) (acc : ℝ) (gp : List ℕ × List ℕ) :
    (if 0 < (window k gp.2).length then
        acc + ((window k (window k gp.2)).map
            (fun p => Real.logb 2 ((d.item_popularity p : ℝ) / totalRatings d))).sum
          / ((min (window k gp.2).length k : ℕ) : ℝ)
      else acc)
      = (if 0 < gp.2.length then
        acc + ((window k gp.2).map
            (fun p => Real.logb 2 ((d.item_popularity p : ℝ) / totalRatings d))).sum
          / ((min gp.2.length k : ℕ) : ℝ)
      else acc) := by
  rw [window_window, min_length_window, length_window]
  by_cases hmin : 0 < min gp.2.length k
  · rw [if_pos hmin, if_pos (lt_of_lt_of_le hmin (min_le_left _ _))]
  · rw [if_neg hmin]
    by_cases hp : 0 < gp.2.length
    · rw [if_pos hp, window_eq_nil k gp.2 (Nat.eq_zero_of_not_pos hmin)]
      simp
    · rw [if_neg hp]

theorem ils_step_trunc (M : ℕ → ℕ → ℝ) (nU k : ℕ) (acc : ℝ) (gp : List ℕ × List ℕ) :
    (if 0 < (window k gp.2).length then
        acc + intraListSim M nU (window k (window k gp.2)) else acc)
      = (if 0 < gp.2.length then acc + intraListSim M nU (window k gp.2) else acc) := by
  rw [window_window, length_window]
  by_cases hmin : 0 < min gp.2.length k
  · rw [if_pos hmin, if_pos (lt_of_lt_of_le hmin (min_le_left _ _))]
  · rw [if_neg hmin]
    by_cases hp : 0 < gp.2.length
    · rw [if_pos hp, window_eq_nil k gp.2 (Nat.eq_zero_of_not_pos hmin),
        intraListSim_nil]
      simp
    · rw [if_neg hp]

theorem trunc_average_precision (e : Evaluator) :
    average_precision (truncEval e) = average_precision e := by
  unfold average_precision truncEval
  simp only [List.foldl_map, List.length_map]
  exact congrArg (fun s => s / ((e.instances.length : ℕ) : ℚ))
    (foldl_fun_congr (fun acc gp => precision_step_trunc e.k acc gp) e.instances 0)

theorem trunc_average_recall (e : Evaluator) :
    average_recall (truncEval e) = average_recall e := by
  unfold average_recall truncEval
  simp only [List.foldl_map, List.length_map]
  exact congrArg (fun s => s / ((e.instances.length : ℕ) : ℚ))
    (foldl_fun_congr (fun acc gp => recall_step_trunc e.k acc gp) e.instances 0)

theorem trunc_general_success (e : Evaluator) :
    general_success_percentage (truncEval e) = general_success_percentage e := by
  unfold general_success_percentage truncEval
  simp only [List.foldl_map, List.length_map]
  exact congrArg (fun s => s / ((e.instances.length : ℕ) : ℚ))
    (foldl_fun_congr (fun acc gp => general_step_trunc e.k acc gp) e.instances 0)

theorem trunc_average_ndcg (e : Evaluator) :
    average_ndcg (truncEval e) = average_ndcg e := by
  unfold average_ndcg truncEval
  simp only [List.foldl_map, List.length_map]
  exact congrArg (fun s => s / ((e.instances.length : ℕ) : ℝ))
    (foldl_fun_congr (fun acc gp => ndcg_step_trunc e.k acc gp) e.instances 0)

theorem trunc_average_novelty (d : Dataset) (e : Evaluator) :
    average_novelty d (truncEval e) = average_novelty d e := by
  unfold average_novelty truncEval
  simp only [List.foldl_map, List.length_map]
  exact congrArg (fun s => (-s) / ((e.instances.length : ℕ) : ℝ))
    (foldl_fun_congr (fun acc gp => novelty_step_trunc d e.k acc gp) e.instances 0)

theorem strictScore_trunc (k : ℕ) :
    ∀ (l : List (List ℕ × List ℕ)),
      strictScore k (l.map (fun gp => (gp.1, window k gp.2))) = strictScore k l
  | [] => rfl
  | (goal, pred) :: rest => by
    match goal with
    | [] => simp [strictScore]
    | g0 :: gtail =>
      simp only [List.map_cons, strictScore, window_window, strictScore_trunc k rest]

theorem trunc_strict_success (e : Evaluator) :
    strict_success_percentage (truncEval e) = strict_success_percentage e := by
  unfold strict_success_percentage truncEval
  simp only [List.length_map]
  rw [strictScore_trunc]

theorem trunc_get_all_goals (e : Evaluator) :
    get_all_goals (truncEval e) = get_all_goals e := by
  unfold get_all_goals truncEval
  simp only [List.flatMap_map]

theorem trunc_get_strict_goals (e : Evaluator) :
    get_strict_goals (truncEval e) = get_strict_goals e := by
  unfold get_strict_goals truncEval
  simp only [optMap_map]

theorem trunc_get_all_predictions (e : Evaluator) :
    get_all_predictions (truncEval e) = get_all_predictions e := by
  unfold get_all_predictions truncEval
  simp only [List.flatMap_map]
  exact flatMap_fun_congr (fun gp => window_window e.k gp.2) e.instances

theorem trunc_get_correct_predictions (e : Evaluator) :
    get_correct_predictions (truncEval e) = get_correct_predictions e := by
  unfold get_correct_predictions truncEval
  simp only [List.flatMap_map]
  exact flatMap_fun_congr (fun gp => by rw [window_window]) e.instances

theorem trunc_get_correct_strict (e : Evaluator) :
    get_correct_strict_predictions (truncEval e)
      = get_correct_strict_predictions e := by
  unfold get_correct_strict_predictions truncEval
  rw [optMap_map]
  rw [optMap_fun_congr (fun gp => by rw [window_window]) e.instances]

theorem trunc_success_in_top (d : Dataset) (e : Evaluator) :
    success_in_top_items d (truncEval e) = success_in_top_items d e := by
  simp only [success_in_top_items, trunc_get_correct_predictions]

theorem trunc_ails_value (d : Dataset) (e : Evaluator) :
    (average_intra_list_similarity d (truncEval e)).1
      = (average_intra_list_similarity d e).1 := by
  obtain ⟨h1, _, _, _⟩ := ails_spec d (truncEval e)
  obtain ⟨g1, _, _, _⟩ := ails_spec d e
  rw [h1, g1]
  have hM : effMatrix d (truncEval e) = effMatrix d e := rfl
  rw [hM]
  simp only [truncEval, List.foldl_map, List.length_map]
  exact congrArg (fun s => s / ((e.instances.length : ℕ) : ℝ))
    (foldl_fun_congr
      (fun acc gp => ils_step_trunc (effMatrix d e) d.n_users e.k acc gp)
      e.instances 0)

/-- C2 (amended): every metric and getter of Evaluator except
get_rank_comparison() is unchanged when each prediction is replaced by its
first min(len(prediction), k) elements. -/
theorem claim_C2_truncation (d : Dataset) (e : Evaluator) :
    average_precision (truncEval e) = average_precision e
      ∧ average_recall (truncEval e) = average_recall e
      ∧ average_ndcg (truncEval e) = average_ndcg e
      ∧ average_novelty d (truncEval e) = average_novelty d e
      ∧ (average_intra_list_similarity d (truncEval e)).1
          = (average_intra_list_similarity d e).1
      ∧ strict_success_percentage (truncEval e) = strict_success_percentage e
      ∧ general_success_percentage (truncEval e) = general_success_percentage e
      ∧ success_in_top_items d (truncEval e) = success_in_top_items d e
      ∧ get_all_goals (truncEval e) = get_all_goals e
      ∧ get_strict_goals (truncEval e) = get_strict_goals e
      ∧ get_all_predictions (truncEval e) = get_all_predictions e
      ∧ get_correct_predictions (truncEval e) = get_correct_predictions e
      ∧ get_correct_strict_predictions (truncEval e)
          = get_correct_strict_predictions e :=
  ⟨trunc_average_precision e, trunc_average_recall e, trunc_average_ndcg e,
    trunc_average_novelty d e, trunc_ails_value d e, trunc_strict_success e,
    trunc_general_success e, trunc_success_in_top d e, trunc_get_all_goals e,
    trunc_get_strict_goals e, trunc_get_all_predictions e,
    trunc_get_correct_predictions e, trunc_get_correct_strict e⟩

/-- The instance on which get_rank_comparison() reads beyond the effective
window: k = 2, goal [1], prediction [3,1,2]. -/
def rankCounterEval : Evaluator :=
  { instances := [([1], [3, 1, 2])], k := 2, interactions := none }

/-- C2 counterexample: get_rank_comparison() is NOT invariant under
replacing predictions by their effective windows. -/
theorem claim_C2_counterexample :
    get_rank_comparison (truncEval rankCounterEval)
      ≠ get_rank_comparison rankCounterEval := by
  decide
